import Mathlib

/-
  Verification of the email-manager CLI (Go) against its specification.

  The embedding models, from the source files:
    - the base64url codec used for message payloads (encoding/base64,
      URLEncoding variant with padding), at the level of byte lists;
    - the Gmail message-part tree and the helpers getBody, extractHeaders,
      processAttachments (src/src/auth.go and the internal/gmail variant);
    - the raw-message assembly of runSend;
    - the token store (saveToken / tokenFromFile) over a map-like
      filesystem, with the JSON record codec of the four token fields
      modelled after encoding/json marshalling (quote and backslash
      escaping);
    - the client-acquisition algorithm getClient and the interactive
      authorization flow getTokenFromWeb (callback handler, wait with
      timeout, listener shutdown, code exchange), with the remote pieces
      (browser, token endpoint) as oracle parameters.

  Go strings are modelled as Lean strings; byte payloads are lists of
  naturals below 256.
-/

namespace EmailManager

/-! ### Base64url codec (model of encoding/base64 URLEncoding) -/

/-- The URL-safe base64 alphabet in index order. -/
def b64Chars : List Char :=
  "ABCDEFGHIJKLMNOPQRSTUVWXYZabcdefghijklmnopqrstuvwxyz0123456789-_".data

/-- The alphabet character of a 6-bit value. -/
def b64Char (n : Nat) : Char := b64Chars.getD n 'A'

/-- Position of a character in a character list, if present. -/
def charIdx : List Char → Char → Option Nat
  | [], _ => none
  | d :: ds, c => if c = d then some 0 else (charIdx ds c).map (· + 1)

/-- The 6-bit value of an alphabet character, if it is one. -/
def b64Index (c : Char) : Option Nat := charIdx b64Chars c

/-- Base64url encoding of a byte list, three bytes to four characters,
with `=` padding as Go URLEncoding emits it. -/
def b64EncodeBytes : List Nat → List Char
  | [] => []
  | [b1] => [b64Char (b1 / 4), b64Char (b1 % 4 * 16), '=', '=']
  | [b1, b2] =>
      [b64Char (b1 / 4), b64Char (b1 % 4 * 16 + b2 / 16), b64Char (b2 % 16 * 4), '=']
  | b1 :: b2 :: b3 :: rest =>
      b64Char (b1 / 4) :: b64Char (b1 % 4 * 16 + b2 / 16) ::
        b64Char (b2 % 16 * 4 + b3 / 64) :: b64Char (b3 % 64) :: b64EncodeBytes rest

/-- Base64url decoding of a character list; fails (as Go DecodeString
fails) on a character outside the alphabet, on a length that is not a
multiple of four, or on padding placed anywhere but the final chunk. -/
def b64DecodeBytes : List Char → Option (List Nat)
  | [] => some []
  | c1 :: c2 :: c3 :: c4 :: rest =>
      match b64Index c1, b64Index c2 with
      | some n1, some n2 =>
          if c3 = '=' then
            if c4 = '=' ∧ rest = [] then some [n1 * 4 + n2 / 16] else none
          else
            match b64Index c3 with
            | some n3 =>
                if c4 = '=' then
                  if rest = [] then some [n1 * 4 + n2 / 16, n2 % 16 * 16 + n3 / 4]
                  else none
                else
                  match b64Index c4 with
                  | some n4 =>
                      (b64DecodeBytes rest).map
                        (fun t => (n1 * 4 + n2 / 16) :: (n2 % 16 * 16 + n3 / 4) ::
                          (n3 % 4 * 64 + n4) :: t)
                  | none => none
            | none => none
      | _, _ => none
  | _ => none

/-- Bytes of a string, one per character. -/
def strBytes (s : String) : List Nat := s.data.map Char.toNat

/-- String rebuilt from bytes, one character per byte. -/
def bytesStr (l : List Nat) : String := ⟨l.map Char.ofNat⟩

/-- String-level base64url encoding, as base64.URLEncoding.EncodeToString. -/
def base64urlEncode (s : String) : String := ⟨b64EncodeBytes (strBytes s)⟩

/-- String-level base64url decoding, as base64.URLEncoding.DecodeString
followed by the Go string conversion of the byte slice. -/
def base64urlDecode (s : String) : Option String :=
  (b64DecodeBytes s.data).map bytesStr

/-! ### Message part trees (gmail.MessagePart) -/

/-- The body of a message part: the attachment reference and the inline
base64url payload, both possibly empty strings. Mirrors
gmail.MessagePartBody as the helpers use it. -/
structure MessagePartBody where
  attachmentId : String
  data : String
deriving DecidableEq

mutual

/-- A message part: MIME type, filename, optional body and sub-parts,
mirroring gmail.MessagePart as the helpers use it. -/
inductive MessagePart : Type where
  | mk (mimeType : String) (filename : String)
       (body : Option MessagePartBody) (parts : PartList)

/-- The list of sub-parts of a message part. -/
inductive PartList : Type where
  | nil
  | cons (p : MessagePart) (ps : PartList)

end

/-- MIME type of a part. -/
def MessagePart.mimeType : MessagePart → String
  | .mk m _ _ _ => m

/-- Filename of a part. -/
def MessagePart.filename : MessagePart → String
  | .mk _ f _ _ => f

/-- Body of a part. -/
def MessagePart.body : MessagePart → Option MessagePartBody
  | .mk _ _ b _ => b

/-- Sub-parts of a part. -/
def MessagePart.parts : MessagePart → PartList
  | .mk _ _ _ ps => ps

/-- Attachment reference of an optional body: Body.AttachmentId, empty
when the body is nil. -/
def bodyRef : Option MessagePartBody → String
  | some b => b.attachmentId
  | none => ""

/-- Attachment reference of a part. -/
def MessagePart.attachmentRef (p : MessagePart) : String := bodyRef p.body

/-- Whether a predicate holds of some immediate element of a part list. -/
def PartList.any (f : MessagePart → Bool) : PartList → Bool
  | .nil => false
  | .cons p ps => f p || PartList.any f ps

/-- Whether a predicate holds of every immediate element of a part list. -/
def PartList.all (f : MessagePart → Bool) : PartList → Bool
  | .nil => true
  | .cons p ps => f p && PartList.all f ps

/-! ### getBody (src/src/auth.go lines 649-669 and GetBody in the
internal/gmail variant) -/

/-- The loop of getBody over the immediate children: the first child of
MIME type text/plain whose non-empty inline payload decodes is returned
decoded; a decode failure falls through to the next child; exhaustion
yields the sentinel. -/
def getBodyScan : PartList → String
  | .nil => "[No text content]"
  | .cons p ps =>
      if p.mimeType = "text/plain" then
        match p.body with
        | some b =>
            if b.data ≠ "" then
              match b64DecodeBytes b.data.data with
              | some bytes => bytesStr bytes
              | none => getBodyScan ps
            else getBodyScan ps
        | none => getBodyScan ps
      else getBodyScan ps

/-- getBody: the decoded inline payload of the part itself when present
and decodable, otherwise the scan of the immediate children, otherwise
the sentinel. -/
def getBody (part : MessagePart) : String :=
  match part.body with
  | some b =>
      if b.data ≠ "" then
        match b64DecodeBytes b.data.data with
        | some bytes => bytesStr bytes
        | none => getBodyScan part.parts
      else getBodyScan part.parts
  | none => getBodyScan part.parts

/-- Reference definition following the words of the spec: the decoded
inline payload of a body, none when the body is nil, its data empty, or
the data undecodable (decode failure treated as absence). -/
def specInlineDecode : Option MessagePartBody → Option String
  | some b =>
      if b.data = "" then none
      else (b64DecodeBytes b.data.data).map bytesStr
  | none => none

/-- Reference definition following the words of the spec: the first
immediate child of MIME type text/plain with a decodable inline payload,
decoded. -/
def specFirstPlainDecode : PartList → Option String
  | .nil => none
  | .cons p ps =>
      match (if p.mimeType = "text/plain" then specInlineDecode p.body else none) with
      | some s => some s
      | none => specFirstPlainDecode ps

/-- Reference definition following the words of the spec: the first
decodable inline payload in the scope made of the part itself and its
immediate text/plain children. -/
def specScopeDecode (part : MessagePart) : Option String :=
  match specInlineDecode part.body with
  | some s => some s
  | none => specFirstPlainDecode part.parts

/-- Claim-side scope test of C3 as the claim words it: the part itself
or any immediate child (of any MIME type) has a decodable inline
payload. -/
def claimScopeHasDecodable (part : MessagePart) : Bool :=
  (specInlineDecode part.body).isSome ||
    PartList.any (fun q => (specInlineDecode q.body).isSome) part.parts

/-- Children with their sub-parts removed. -/
def dropSubParts : PartList → PartList
  | .nil => .nil
  | .cons (.mk m f b _) ps => .cons (.mk m f b .nil) (dropSubParts ps)

/-- A part with every grandchild deleted: the part keeps its own fields
and its immediate children keep theirs, but the children lose their
sub-parts. -/
def truncateGrandchildren (part : MessagePart) : MessagePart :=
  match part with
  | .mk m f b ps => .mk m f b (dropSubParts ps)

/-! ### processAttachments (src/src/auth.go lines 688-727 and
ProcessAttachments in the internal/gmail variant) -/

/-- One download-and-write action of processAttachments: the filename
written, the attachment reference fetched and the decoded bytes. -/
structure SaveAction where
  filename : String
  attachmentRef : String
  contents : List Nat
deriving DecidableEq

/-- The qualifying test of processAttachments: a non-empty filename
together with a non-empty attachment reference (a nil body gives the
empty reference, so it never qualifies, as in the source where the
reference is only read behind the Body nil check). -/
def qualifiesAsAttachment (p : MessagePart) : Bool :=
  decide (p.filename ≠ "") && decide (p.attachmentRef ≠ "")

/-- The body of the outer if of processAttachments: the part at hand is
downloaded, decoded and written when it has a non-empty filename, a body
and a non-empty attachment reference; a fetch error or a decode error
aborts. -/
def selfAttachmentStep (fetch : String → Except String String) (fn : String) :
    Option MessagePartBody → Except String (List SaveAction)
  | some bd =>
      if fn ≠ "" ∧ bd.attachmentId ≠ "" then
        match fetch bd.attachmentId with
        | .error e => .error ("error downloading attachment " ++ fn ++ ": " ++ e)
        | .ok dat =>
            match b64DecodeBytes dat.data with
            | some bytes => .ok [⟨fn, bd.attachmentId, bytes⟩]
            | none => .error ("error decoding attachment " ++ fn)
      else .ok []
  | none => .ok []

mutual

/-- processAttachments over a fetch oracle standing for
service.Users.Messages.Attachments.Get: the step for the part itself,
then the sub-parts recursively in order; an error aborts the
traversal. -/
def processAttachments (fetch : String → Except String String) :
    MessagePart → Except String (List SaveAction)
  | .mk _ fn b ps =>
      match selfAttachmentStep fetch fn b with
      | .error e => .error e
      | .ok acts =>
          match processAttachmentsList fetch ps with
          | .error e => .error e
          | .ok rest => .ok (acts ++ rest)

/-- The recursion of processAttachments over a list of sub-parts. -/
def processAttachmentsList (fetch : String → Except String String) :
    PartList → Except String (List SaveAction)
  | .nil => .ok []
  | .cons p ps =>
      match processAttachments fetch p with
      | .error e => .error e
      | .ok acts =>
          match processAttachmentsList fetch ps with
          | .error e => .error e
          | .ok rest => .ok (acts ++ rest)

end

mutual

/-- The parts of a tree in document order: the part itself, then the
descendants of each sub-part in order. -/
def preorder : MessagePart → List MessagePart
  | .mk m f b ps => .mk m f b ps :: preorderList ps

/-- Document order of a list of parts. -/
def preorderList : PartList → List MessagePart
  | .nil => []
  | .cons p ps => preorder p ++ preorderList ps

end

/-- A fetch oracle that serves every attachment reference its base64url
encoded contents. -/
def goodFetch (contents : String → List Nat) : String → Except String String :=
  fun aid => .ok ⟨b64EncodeBytes (contents aid)⟩

/-! ### extractHeaders (src/src/auth.go lines 637-647 and ExtractHeaders
in the internal/gmail variant) -/

/-- A message header: name and value. -/
structure MessagePartHeader where
  name : String
  value : String

/-- extractHeaders: one pass over the headers; a header named Subject
overwrites the subject so far, a header named From overwrites the from
so far, any other name is ignored; both start empty. -/
def extractHeaders (headers : List MessagePartHeader) : String × String :=
  headers.foldl
    (fun acc h =>
      if h.name = "Subject" then (h.value, acc.2)
      else if h.name = "From" then (acc.1, h.value)
      else acc)
    ("", "")

/-- Reference definition following the words of the spec: the value of
the last header with the given name, or the default when none occurs. -/
def lastHeaderValueD (nm : String) (headers : List MessagePartHeader)
    (dflt : String) : String :=
  (((headers.filter (fun h => h.name = nm)).map (fun h => h.value)).getLastD dflt)

/-! ### runSend (src/src/auth.go lines 581-613 and the internal/cli
variant): assembly of the raw message -/

/-- The flag values of a send invocation (setupSendFlags): to, subject
and body are required; cc, bcc and attach are optional, attach a string
slice. -/
structure SendFlags where
  «to» : String
  cc : String
  bcc : String
  subject : String
  body : String
  attach : List String

/-- The message text runSend builds: the To header, the Cc and Bcc
headers when their flags are non-empty, the Subject header, a blank
line, then the body, with CRLF line ends. -/
def buildSendMessage (f : SendFlags) : String :=
  "To: " ++ f.«to» ++ "\r\n" ++
    (if f.cc ≠ "" then "Cc: " ++ f.cc ++ "\r\n" else "") ++
    (if f.bcc ≠ "" then "Bcc: " ++ f.bcc ++ "\r\n" else "") ++
    ("Subject: " ++ f.subject ++ "\r\n") ++ "\r\n" ++ f.body

/-- The Raw field runSend hands to the send call: the base64url encoding
of the built message. -/
def runSendRaw (f : SendFlags) : String := base64urlEncode (buildSendMessage f)

/-! ### The token store (saveToken, src/src/auth.go lines 183-197, and
tokenFromFile, lines 171-181) -/

/-- The persisted token record: the four fields of the oauth2 token as
serialized (access value, token type, refresh value, expiry). The
expiry instant is kept in its serialized text form. -/
structure Token where
  accessToken : String
  tokenType : String
  refreshToken : String
  expiry : String
deriving DecidableEq

/-- JSON string escaping at character level, modelling encoding/json:
a quote or a backslash is preceded by a backslash. -/
def escChars : List Char → List Char
  | [] => []
  | c :: cs =>
      if c = '"' ∨ c = '\\' then '\\' :: c :: escChars cs else c :: escChars cs

/-- Drops the expected opening characters, failing on a mismatch. -/
def stripExpected : List Char → List Char → Option (List Char)
  | [], s => some s
  | _ :: _, [] => none
  | c :: cs, d :: ds => if d = c then stripExpected cs ds else none

/-- Reads a JSON string body up to its closing quote, undoing the
escaping; the characters read and the remainder. -/
def parseStringBody : List Char → Option (List Char × List Char)
  | [] => none
  | c :: rest =>
      if c = '"' then some ([], rest)
      else if c = '\\' then
        match rest with
        | [] => none
        | d :: rest2 => (parseStringBody rest2).map (fun p => (d :: p.1, p.2))
      else (parseStringBody rest).map (fun p => (c :: p.1, p.2))

/-- The characters of the JSON record the token is saved as, modelling
the output of the encoding/json Encoder on the token record: the four
fields in declaration order, string values escaped, and the trailing
newline the Encoder writes. -/
def encodeTokenChars (t : Token) : List Char :=
  "\x7b\"access_token\":\"".data ++
    (escChars t.accessToken.data ++ ('"' ::
      (",\"token_type\":\"".data ++
        (escChars t.tokenType.data ++ ('"' ::
          (",\"refresh_token\":\"".data ++
            (escChars t.refreshToken.data ++ ('"' ::
              (",\"expiry\":\"".data ++
                (escChars t.expiry.data ++ ('"' :: "\x7d\n".data)))))))))))

/-- The saved form of a token. -/
def encodeToken (t : Token) : String := ⟨encodeTokenChars t⟩

/-- The decoder of the saved record, modelling the encoding/json Decoder
on the token record: the skeleton of the four fields in order, each
string unescaped. -/
def decodeToken (s : String) : Option Token :=
  (stripExpected "\x7b\"access_token\":\"".data s.data).bind fun r1 =>
  (parseStringBody r1).bind fun p1 =>
  (stripExpected ",\"token_type\":\"".data p1.2).bind fun r3 =>
  (parseStringBody r3).bind fun p2 =>
  (stripExpected ",\"refresh_token\":\"".data p2.2).bind fun r5 =>
  (parseStringBody r5).bind fun p3 =>
  (stripExpected ",\"expiry\":\"".data p3.2).bind fun r7 =>
  (parseStringBody r7).bind fun p4 =>
  if p4.2 = "\x7d\n".data then some ⟨⟨p1.1⟩, ⟨p2.1⟩, ⟨p3.1⟩, ⟨p4.1⟩⟩ else none

/-- The filesystem as a map from paths to file contents. -/
def FileSystem : Type := String → Option String

/-- saveToken (src/src/auth.go lines 183-197): writes the serialized
token at the given path, overwriting any previous contents. The
directory creation and the owner-only permission bits of the source
carry no information at this level. -/
def saveToken (path : String) (t : Token) (fs : FileSystem) : FileSystem :=
  fun p => if p = path then some (encodeToken t) else fs p

/-- tokenFromFile (src/src/auth.go lines 171-181): opens the file at
the path and decodes a token from it; an absent file (open error) or an
undecodable content (decode error) yields none. -/
def tokenFromFile (path : String) (fs : FileSystem) : Option Token :=
  match fs path with
  | none => none
  | some contents => decodeToken contents

/-! ### getClient (src/src/auth.go lines 39-65) -/

/-- The token file name (src/src/auth.go line 22). -/
def tokenFile : String := "token_gmail.json"

/-- The token path: the .credentials directory under the home directory
joined with the token file name. -/
def tokenPath : String := "~/.credentials/" ++ tokenFile

/-- The authenticated client handle, determined by the token in hand
(config.Client(ctx, token)). -/
structure Client where
  token : Token
deriving DecidableEq

/-- The outcome of getClient: the result, the warnings printed to
standard error, and whether a token save was attempted. -/
structure GetClientResult where
  result : Except String Client
  warnings : List String
  saveAttempted : Bool

/-- The environment getClient runs in: the filesystem holding the token
file, the credentials file contents (none when unreadable), whether the
credentials parse, the outcome of the interactive flow when invoked, and
whether the token save succeeds. -/
structure AuthEnv where
  fs : FileSystem
  credData : Option String
  parseOk : Bool
  webToken : Except String Token
  saveOk : Bool

/-- getClient: read the credentials file, parse the config, load the
token from the token file; when the load fails run the interactive flow,
and try to save the fresh token, a save failure only producing a
warning; build the client from the token in hand. -/
def getClient (env : AuthEnv) : GetClientResult :=
  match env.credData with
  | none => ⟨.error "unable to read credentials file", [], false⟩
  | some _ =>
      if env.parseOk then
        match tokenFromFile tokenPath env.fs with
        | some tok => ⟨.ok ⟨tok⟩, [], false⟩
        | none =>
            match env.webToken with
            | .error e => ⟨.error e, [], false⟩
            | .ok tok =>
                if env.saveOk then ⟨.ok ⟨tok⟩, [], true⟩
                else ⟨.ok ⟨tok⟩, ["Warning: unable to save token"], true⟩
      else ⟨.error "unable to parse credentials", [], false⟩

/-! ### getTokenFromWeb (src/src/auth.go lines 81-169) -/

/-- The state value placed in the authorization URL
(config.AuthCodeURL at line 126). -/
def authState : String := "state-token"

/-- An inbound request at the callback endpoint, by its query
parameters: the code and the state, empty when absent. -/
structure CallbackRequest where
  code : String
  state : String

/-- What the callback handler puts on the hand-off channels: a code on
codeChan or an error on errChan. -/
inductive ChannelMsg : Type where
  | code (c : String)
  | err (e : String)
deriving DecidableEq

/-- The callback handler (src/src/auth.go lines 91-110): an empty code
query parameter goes to errChan; otherwise the confirmation page is
written and the code goes to codeChan. No other query parameter is
read. -/
def handleCallback (r : CallbackRequest) : ChannelMsg :=
  if r.code = "" then .err "no code in callback" else .code r.code

/-- What the select at lines 147-154 observes: a callback request
arrived, or three minutes elapsed first. -/
inductive WaitOutcome : Type where
  | callback (r : CallbackRequest)
  | timeout

/-- A failure of the flow: an error from the callback handler, the
three-minute timeout, or a failed code exchange. -/
inductive AuthFailure : Type where
  | callbackErr (e : String)
  | timeout
  | exchangeErr (e : String)
deriving DecidableEq

/-- The observable exit of getTokenFromWeb: the returned result and
whether server.Shutdown was invoked before returning. -/
structure FlowExit where
  result : Except AuthFailure Token
  serverShutdown : Bool

/-- The code the flow proceeds to exchange for the wait outcome, if
any. -/
def exchangedCode : WaitOutcome → Option String
  | .callback r =>
      match handleCallback r with
      | .code c => some c
      | .err _ => none
  | .timeout => none

/-- getTokenFromWeb after the wait: on a code from codeChan the server
is shut down and the code exchanged at the token endpoint (an oracle
here); an error from errChan or the timeout returns at once, with no
shutdown on those paths. -/
def getTokenFromWeb (exchange : String → Except String Token) :
    WaitOutcome → FlowExit
  | .callback r =>
      match handleCallback r with
      | .err e => ⟨.error (.callbackErr e), false⟩
      | .code c =>
          match exchange c with
          | .error e => ⟨.error (.exchangeErr e), true⟩
          | .ok t => ⟨.ok t, true⟩
  | .timeout => ⟨.error .timeout, false⟩

/-! ### Concrete inputs used by counterexamples and witnesses -/

/-- A part with no inline payload of its own and a single immediate
child of MIME type text/html carrying a decodable inline payload. -/
def c3Part : MessagePart :=
  .mk "multipart/alternative" "" none
    (.cons (.mk "text/html" "" (some ⟨"", "aGVsbG8="⟩) .nil) .nil)

/-- A tree with three qualifying attachment parts at mixed depths, in
document order a.txt, b.png (one level deeper), c.pdf, plus a part with
a filename but no attachment reference and a part with neither. -/
def c6Tree : MessagePart :=
  .mk "multipart/mixed" "" none
    (.cons (.mk "text/plain" "" (some ⟨"", ""⟩) .nil)
      (.cons (.mk "application/pdf" "a.txt" (some ⟨"A1", ""⟩) .nil)
        (.cons (.mk "multipart/related" "" none
            (.cons (.mk "image/png" "b.png" (some ⟨"B2", ""⟩) .nil)
              (.cons (.mk "image/gif" "noref.gif" (some ⟨"", ""⟩) .nil) .nil)))
          (.cons (.mk "application/x-stuff" "c.pdf" (some ⟨"C3", ""⟩) .nil) .nil))))

/-- An environment for getClient where the token file holds undecodable
content, the credentials are fine, the interactive flow succeeds and the
token save fails. -/
def c10Env : AuthEnv :=
  ⟨fun p => if p = tokenPath then some "garbage" else none,
   some "client-descriptor", true, .ok ⟨"A", "B", "R", "E"⟩, false⟩

/-! ### Helper lemmas -/

lemma b64Index_b64Char {k : Nat} (h : k < 64) : b64Index (b64Char k) = some k := by
  have all : ∀ k : Fin 64, b64Index (b64Char k.val) = some k.val := by decide
  exact all ⟨k, h⟩

lemma b64Char_ne_pad {k : Nat} (h : k < 64) : b64Char k ≠ '=' := by
  have all : ∀ k : Fin 64, b64Char k.val ≠ '=' := by decide
  exact all ⟨k, h⟩

/-- Decoding inverts encoding on genuine byte lists. -/
lemma b64_roundtrip : ∀ l : List Nat, (∀ b ∈ l, b < 256) →
    b64DecodeBytes (b64EncodeBytes l) = some l
  | [], _ => rfl
  | [b1], h => by
      have hb1 : b1 < 256 := h b1 (by simp)
      have h1 : b1 / 4 < 64 := by omega
      have h2 : b1 % 4 * 16 < 64 := by omega
      show b64DecodeBytes [b64Char (b1 / 4), b64Char (b1 % 4 * 16), '=', '='] = some [b1]
      simp only [b64DecodeBytes, b64Index_b64Char h1, b64Index_b64Char h2,
        if_pos rfl, and_self, if_true]
      simp only [Option.some.injEq, List.cons.injEq, and_true]
      omega
  | [b1, b2], h => by
      have hb1 : b1 < 256 := h b1 (by simp)
      have hb2 : b2 < 256 := h b2 (by simp)
      have h1 : b1 / 4 < 64 := by omega
      have h2 : b1 % 4 * 16 + b2 / 16 < 64 := by omega
      have h3 : b2 % 16 * 4 < 64 := by omega
      show b64DecodeBytes [b64Char (b1 / 4), b64Char (b1 % 4 * 16 + b2 / 16),
        b64Char (b2 % 16 * 4), '='] = some [b1, b2]
      simp only [b64DecodeBytes, b64Index_b64Char h1, b64Index_b64Char h2,
        b64Index_b64Char h3, if_neg (b64Char_ne_pad h3), if_pos rfl, if_true]
      simp only [Option.some.injEq, List.cons.injEq, and_true]
      constructor <;> omega
  | b1 :: b2 :: b3 :: rest, h => by
      have hb1 : b1 < 256 := h b1 (by simp)
      have hb2 : b2 < 256 := h b2 (by simp)
      have hb3 : b3 < 256 := h b3 (by simp)
      have h1 : b1 / 4 < 64 := by omega
      have h2 : b1 % 4 * 16 + b2 / 16 < 64 := by omega
      have h3 : b2 % 16 * 4 + b3 / 64 < 64 := by omega
      have h4 : b3 % 64 < 64 := by omega
      have ih : b64DecodeBytes (b64EncodeBytes rest) = some rest :=
        b64_roundtrip rest (fun b hb => h b (by simp [hb]))
      show b64DecodeBytes (b64Char (b1 / 4) :: b64Char (b1 % 4 * 16 + b2 / 16) ::
        b64Char (b2 % 16 * 4 + b3 / 64) :: b64Char (b3 % 64) ::
        b64EncodeBytes rest) = some (b1 :: b2 :: b3 :: rest)
      simp only [b64DecodeBytes, b64Index_b64Char h1, b64Index_b64Char h2,
        b64Index_b64Char h3, b64Index_b64Char h4, if_neg (b64Char_ne_pad h3),
        if_neg (b64Char_ne_pad h4), ih, Option.map_some']
      simp only [Option.some.injEq, List.cons.injEq, and_true]
      refine ⟨by omega, by omega, by omega⟩

lemma getBodyScan_eq : ∀ ps : PartList,
    getBodyScan ps = (specFirstPlainDecode ps).getD "[No text content]"
  | .nil => rfl
  | .cons p ps => by
      have ih := getBodyScan_eq ps
      cases p with
      | mk m f b sub =>
          simp only [getBodyScan, specFirstPlainDecode, MessagePart.mimeType,
            MessagePart.body, specInlineDecode]
          by_cases hm : m = "text/plain"
          · simp only [if_pos hm]
            cases b with
            | none => simpa using ih
            | some bd =>
                by_cases hd : bd.data = ""
                · simp [hd, ih]
                · simp only [hd, if_neg, if_true, ite_not]
                  cases hdec : b64DecodeBytes bd.data.data with
                  | none => simp [hd, hdec, ih]
                  | some bytes => simp [hd, hdec]
          · simp [hm, ih]

@[simp] lemma mimeType_mk (m f : String) (b : Option MessagePartBody) (ps : PartList) :
    (MessagePart.mk m f b ps).mimeType = m := rfl

@[simp] lemma filename_mk (m f : String) (b : Option MessagePartBody) (ps : PartList) :
    (MessagePart.mk m f b ps).filename = f := rfl

@[simp] lemma body_mk (m f : String) (b : Option MessagePartBody) (ps : PartList) :
    (MessagePart.mk m f b ps).body = b := rfl

@[simp] lemma parts_mk (m f : String) (b : Option MessagePartBody) (ps : PartList) :
    (MessagePart.mk m f b ps).parts = ps := rfl

@[simp] lemma attachmentRef_mk (m f : String) (b : Option MessagePartBody) (ps : PartList) :
    (MessagePart.mk m f b ps).attachmentRef = bodyRef b := rfl

lemma qualifies_mk (m f : String) (b : Option MessagePartBody) (ps : PartList) :
    qualifiesAsAttachment (.mk m f b ps) = true ↔ (f ≠ "" ∧ bodyRef b ≠ "") := by
  simp [qualifiesAsAttachment]

lemma selfAttachmentStep_good (contents : String → List Nat)
    (hc : ∀ aid, ∀ b ∈ contents aid, b < 256) (fn : String)
    (b : Option MessagePartBody) :
    selfAttachmentStep (goodFetch contents) fn b =
      .ok (if fn ≠ "" ∧ bodyRef b ≠ "" then
        [⟨fn, bodyRef b, contents (bodyRef b)⟩] else []) := by
  cases b with
  | none => simp [selfAttachmentStep, bodyRef]
  | some bd =>
      by_cases hq : fn ≠ "" ∧ bd.attachmentId ≠ ""
      · have hdec : b64DecodeBytes
            ((⟨b64EncodeBytes (contents bd.attachmentId)⟩ : String).data) =
            some (contents bd.attachmentId) :=
          b64_roundtrip _ (hc bd.attachmentId)
        simp [selfAttachmentStep, goodFetch, bodyRef, hq, hdec]
      · simp [selfAttachmentStep, bodyRef, hq]

mutual

lemma processAttachments_good (contents : String → List Nat)
    (hc : ∀ aid, ∀ b ∈ contents aid, b < 256) :
    ∀ p : MessagePart, processAttachments (goodFetch contents) p =
      .ok (((preorder p).filter qualifiesAsAttachment).map
        (fun q => ⟨q.filename, q.attachmentRef, contents q.attachmentRef⟩))
  | .mk m f b ps => by
      have ihl := processAttachmentsList_good contents hc ps
      rw [processAttachments, selfAttachmentStep_good contents hc, ihl]
      rw [preorder, List.filter_cons]
      by_cases hq : f ≠ "" ∧ bodyRef b ≠ ""
      · rw [if_pos hq, if_pos ((qualifies_mk m f b ps).mpr hq)]
        simp
      · rw [if_neg hq, if_neg]
        · simp
        · intro hc2
          exact hq ((qualifies_mk m f b ps).mp hc2)

lemma processAttachmentsList_good (contents : String → List Nat)
    (hc : ∀ aid, ∀ b ∈ contents aid, b < 256) :
    ∀ ps : PartList, processAttachmentsList (goodFetch contents) ps =
      .ok (((preorderList ps).filter qualifiesAsAttachment).map
        (fun q => ⟨q.filename, q.attachmentRef, contents q.attachmentRef⟩))
  | .nil => rfl
  | .cons p ps => by
      have ih := processAttachments_good contents hc p
      have ihl := processAttachmentsList_good contents hc ps
      rw [processAttachmentsList, ih, ihl, preorderList, List.filter_append]
      simp

end

/-- getBody agrees with the spec-side scope decode, defaulting to the
sentinel. -/
lemma getBody_eq (part : MessagePart) :
    getBody part = (specScopeDecode part).getD "[No text content]" := by
  cases part with
  | mk m f b ps =>
      simp only [getBody, specScopeDecode, MessagePart.body, MessagePart.parts,
        specInlineDecode]
      cases b with
      | none => simpa using getBodyScan_eq ps
      | some bd =>
          by_cases hd : bd.data = ""
          · simpa [hd] using getBodyScan_eq ps
          · simp only [hd, ite_not, if_neg, if_true]
            cases hdec : b64DecodeBytes bd.data.data with
            | none => simpa [hd, hdec] using getBodyScan_eq ps
            | some bytes => simp [hd, hdec]

lemma lastHeaderValueD_cons (nm : String) (h : MessagePartHeader)
    (t : List MessagePartHeader) (d : String) :
    lastHeaderValueD nm (h :: t) d =
      if h.name = nm then lastHeaderValueD nm t h.value
      else lastHeaderValueD nm t d := by
  by_cases hn : h.name = nm
  · rw [if_pos hn, lastHeaderValueD, List.filter_cons, if_pos (by simp [hn]),
      List.map_cons, List.getLastD_cons]
    rfl
  · rw [if_neg hn, lastHeaderValueD, List.filter_cons, if_neg (by simp [hn])]
    rfl

lemma extractHeaders_fold (headers : List MessagePartHeader) :
    ∀ acc : String × String,
      headers.foldl
        (fun acc h =>
          if h.name = "Subject" then (h.value, acc.2)
          else if h.name = "From" then (acc.1, h.value)
          else acc) acc =
      (lastHeaderValueD "Subject" headers acc.1,
        lastHeaderValueD "From" headers acc.2) := by
  induction headers with
  | nil => intro acc; simp [lastHeaderValueD]
  | cons h t ih =>
      intro acc
      rw [List.foldl_cons, ih, lastHeaderValueD_cons, lastHeaderValueD_cons]
      by_cases hs : h.name = "Subject"
      · have hf : ¬ h.name = "From" := by rw [hs]; decide
        rw [if_pos hs, if_neg hf]
        simp [hs, hf]
      · by_cases hf : h.name = "From"
        · rw [if_neg hs, if_pos hf]
          simp [hs, hf]
        · rw [if_neg hs, if_neg hf]
          simp [hs, hf]

lemma stripExpected_append : ∀ pre rest : List Char,
    stripExpected pre (pre ++ rest) = some rest
  | [], rest => rfl
  | c :: cs, rest => by
      rw [List.cons_append, stripExpected, if_pos rfl]
      exact stripExpected_append cs rest

lemma parseStringBody_escChars : ∀ cs rest : List Char,
    parseStringBody (escChars cs ++ '"' :: rest) = some (cs, rest)
  | [], rest => by
      show parseStringBody ('"' :: rest) = some ([], rest)
      rw [parseStringBody.eq_def]
      simp
  | c :: cs, rest => by
      have ih := parseStringBody_escChars cs rest
      by_cases hc : c = '"' ∨ c = '\\'
      · rw [escChars, if_pos hc]
        show parseStringBody ('\\' :: c :: (escChars cs ++ '"' :: rest)) =
          some (c :: cs, rest)
        rw [parseStringBody.eq_def]
        simp [ih]
      · rw [escChars, if_neg hc]
        have hq : c ≠ '"' := fun h => hc (Or.inl h)
        have hb : c ≠ '\\' := fun h => hc (Or.inr h)
        show parseStringBody (c :: (escChars cs ++ '"' :: rest)) = some (c :: cs, rest)
        rw [parseStringBody.eq_def]
        simp [hq, hb, ih]

/-- The JSON record codec inverts on every token. -/
lemma decodeToken_encodeToken (t : Token) : decodeToken (encodeToken t) = some t := by
  have hd : (encodeToken t).data = encodeTokenChars t := rfl
  simp only [decodeToken, hd, encodeTokenChars, stripExpected_append,
    Option.some_bind, parseStringBody_escChars]
  simp

lemma getBodyScan_dropSubParts : ∀ ps : PartList,
    getBodyScan (dropSubParts ps) = getBodyScan ps
  | .nil => rfl
  | .cons (.mk m f b sub) ps => by
      have ih := getBodyScan_dropSubParts ps
      rw [dropSubParts]
      simp only [getBodyScan, mimeType_mk, body_mk, ih]

/-- getBody never reads below the immediate children. -/
lemma getBody_truncate (p : MessagePart) :
    getBody (truncateGrandchildren p) = getBody p := by
  cases p with
  | mk m f b ps =>
      simp only [truncateGrandchildren, getBody, body_mk, parts_mk,
        getBodyScan_dropSubParts]

/-! ### Claim theorems -/

/-- C1, counterexample: a callback carrying the code ABC and a state
differing from the one placed in the authorization URL is not treated as
a failure: the flow proceeds to exchange ABC and completes. -/
theorem c1_counterexample :
    exchangedCode (.callback ⟨"ABC", "wrong-state"⟩) = some "ABC" ∧
    "wrong-state" ≠ authState ∧
    (getTokenFromWeb (fun _ => .ok ⟨"A", "B", "R", "E"⟩)
      (.callback ⟨"ABC", "wrong-state"⟩)).result = .ok ⟨"A", "B", "R", "E"⟩ := by
  refine ⟨rfl, by decide, rfl⟩

/-- C1, amended: the callback handler never inspects the state query
parameter, so two callbacks differing only in state are treated alike;
a callback proceeds to the code exchange exactly when its code parameter
is non-empty, whatever its state; and the state value placed in the
authorization URL is the fixed literal state-token rather than a random
value. -/
theorem c1_state_ignored :
    (∀ c s₁ s₂, handleCallback ⟨c, s₁⟩ = handleCallback ⟨c, s₂⟩) ∧
    (∀ r : CallbackRequest, (exchangedCode (.callback r)).isSome ↔ r.code ≠ "") ∧
    authState = "state-token" := by
  refine ⟨fun c s₁ s₂ => rfl, fun r => ?_, rfl⟩
  by_cases h : r.code = "" <;> simp [exchangedCode, handleCallback, h]

/-- C2, counterexample: when no callback arrives within the timeout the
flow does return a timeout-kind error, but the listener is not shut
down on that exit path. -/
theorem c2_counterexample :
    (getTokenFromWeb (fun _ => .error "unused") .timeout).result =
      .error .timeout ∧
    (getTokenFromWeb (fun _ => .error "unused") .timeout).serverShutdown = false :=
  ⟨rfl, rfl⟩

/-- C2, amended: the listener is shut down exactly on the exits where a
code was received (before the exchange); on the error-callback exit and
on the timeout exit the flow returns without shutting the listener
down, the timeout exit returning a timeout-kind error. -/
theorem c2_shutdown_only_on_code :
    (∀ (exchange : String → Except String Token) (o : WaitOutcome),
      (getTokenFromWeb exchange o).serverShutdown = true ↔
        (exchangedCode o).isSome) ∧
    (∀ exchange : String → Except String Token,
      getTokenFromWeb exchange .timeout = ⟨.error .timeout, false⟩) := by
  constructor
  · intro exchange o
    cases o with
    | callback r =>
        by_cases h : r.code = ""
        · simp [getTokenFromWeb, handleCallback, exchangedCode, h]
        · cases he : exchange r.code <;>
            simp [getTokenFromWeb, handleCallback, exchangedCode, h, he]
    | timeout => simp [getTokenFromWeb, exchangedCode]
  · intro exchange
    rfl

/-- C3, counterexample: a part whose only decodable inline payload sits
on an immediate child of MIME type text/html is in the claimed scope
(self plus immediate children), yet getBody returns the sentinel. -/
theorem c3_counterexample :
    getBody c3Part = "[No text content]" ∧
    claimScopeHasDecodable c3Part = true :=
  ⟨rfl, rfl⟩

/-- C3, amended: getBody returns the sentinel exactly when the scope
made of the part itself and its immediate children of MIME type
text/plain yields no decoded payload, or the first decoded payload of
that scope is itself the sentinel text; immediate children of other
MIME types are skipped, and payloads at grandchild depth or beyond
never influence the result: getBody is unchanged when every grandchild
is deleted. -/
theorem c3_sentinel_amended :
    ∀ p : MessagePart,
      (getBody p = "[No text content]" ↔
        (specScopeDecode p = none ∨
          specScopeDecode p = some "[No text content]")) ∧
      getBody (truncateGrandchildren p) = getBody p := by
  intro p
  refine ⟨?_, getBody_truncate p⟩
  rw [getBody_eq]
  cases h : specScopeDecode p with
  | none => simp
  | some s => simp

/-- C4: with to a@x.com, subject Hi, body Hello and empty cc and bcc,
the Raw value handed to the send call is the base64url encoding of
exactly the text To: a@x.com CRLF Subject: Hi CRLF CRLF Hello, whose
base64url decoding gives that text back; and in general the message is
the To header, the Cc and Bcc headers exactly when non-empty, the
Subject header, a blank line and the body, in that order. -/
theorem c4_send_scenario :
    runSendRaw ⟨"a@x.com", "", "", "Hi", "Hello", []⟩ =
      base64urlEncode "To: a@x.com\r\nSubject: Hi\r\n\r\nHello" ∧
    base64urlDecode (runSendRaw ⟨"a@x.com", "", "", "Hi", "Hello", []⟩) =
      some "To: a@x.com\r\nSubject: Hi\r\n\r\nHello" ∧
    ∀ f : SendFlags, buildSendMessage f =
      "To: " ++ f.«to» ++ "\r\n" ++
        (if f.cc = "" then "" else "Cc: " ++ f.cc ++ "\r\n") ++
        (if f.bcc = "" then "" else "Bcc: " ++ f.bcc ++ "\r\n") ++
        "Subject: " ++ f.subject ++ "\r\n" ++ "\r\n" ++ f.body := by
  refine ⟨rfl, by rfl, ?_⟩
  intro f
  have hs : ∀ x : String, ("\r\n" : String) ++ ("Subject: " ++ x) =
      "\r\nSubject: " ++ x := by
    intro x
    rw [← String.append_assoc]
    rfl
  rw [buildSendMessage]
  by_cases h1 : f.cc = "" <;> by_cases h2 : f.bcc = "" <;>
    simp [h1, h2, String.append_assoc, hs]

/-- C5: the raw message built and submitted by a send invocation does
not depend on the attach flag values: two invocations agreeing on to,
cc, bcc, subject and body produce the same Raw value whatever their
attach lists. -/
theorem c5_attach_ignored :
    ∀ (t c b s bo : String) (a₁ a₂ : List String),
      runSendRaw ⟨t, c, b, s, bo, a₁⟩ = runSendRaw ⟨t, c, b, s, bo, a₂⟩ := by
  intro t c b s bo a₁ a₂
  rfl

/-- C6: over a fetch oracle serving every attachment its encoded
contents, processAttachments returns exactly the qualifying parts of
the tree, in document order, one download-and-write action each, a part
qualifying exactly when it has a non-empty filename and a non-empty
attachment reference; a tree with no attachment references at all
yields no action. -/
theorem c6_attachment_traversal :
    ∀ contents : String → List Nat,
      (∀ aid, ∀ b ∈ contents aid, b < 256) →
      ∀ p : MessagePart,
        processAttachments (goodFetch contents) p =
          .ok (((preorder p).filter qualifiesAsAttachment).map
            (fun q => ⟨q.filename, q.attachmentRef, contents q.attachmentRef⟩)) ∧
        ((∀ q ∈ preorder p, q.attachmentRef = "") →
          processAttachments (goodFetch contents) p = .ok []) := by
  intro contents hc p
  refine ⟨processAttachments_good contents hc p, fun hall => ?_⟩
  rw [processAttachments_good contents hc p]
  have hnil : (preorder p).filter qualifiesAsAttachment = [] := by
    rw [List.filter_eq_nil_iff]
    intro q hq
    simp [qualifiesAsAttachment, hall q hq]
  rw [hnil]
  rfl

/-- C6, witness: on the concrete mixed-depth tree, the three qualifying
parts produce exactly three actions in document order and the
filename-without-reference part produces none. -/
theorem c6_attachment_traversal_witness :
    processAttachments (goodFetch (fun _ => ([] : List Nat))) c6Tree =
      .ok [⟨"a.txt", "A1", []⟩, ⟨"b.png", "B2", []⟩, ⟨"c.pdf", "C3", []⟩] := by
  have h := (c6_attachment_traversal (fun _ => [])
    (fun aid b hb => absurd hb (List.not_mem_nil b)) c6Tree).1
  exact h.trans (by rfl)

/-- C7: getBody returns the decoded inline payload of the part itself
when present and decodable, otherwise the decoded payload of the first
immediate child of MIME type text/plain whose payload is present and
decodable, otherwise the sentinel; a decode failure at any step counts
as absence and never aborts. -/
theorem c7_getBody_functional_spec :
    ∀ p : MessagePart,
      getBody p =
        match specInlineDecode p.body with
        | some s => s
        | none =>
            match specFirstPlainDecode p.parts with
            | some s => s
            | none => "[No text content]" := by
  intro p
  rw [getBody_eq, specScopeDecode]
  cases h : specInlineDecode p.body with
  | some s => rfl
  | none =>
      cases h2 : specFirstPlainDecode p.parts with
      | some s => rfl
      | none => rfl

/-- C8: saving any token at the token path and loading from that path
yields the very token back, equal in every field. -/
theorem c8_token_roundtrip :
    ∀ (path : String) (t : Token) (fs : FileSystem),
      tokenFromFile path (saveToken path t fs) = some t := by
  intro path t fs
  simp [tokenFromFile, saveToken, decodeToken_encodeToken]

/-- C9: extractHeaders returns as subject the value of the last header
named exactly Subject and as from the value of the last header named
exactly From, the comparison case-sensitive, every other header name
ignored, and the empty string when no such header occurs. -/
theorem c9_extractHeaders_last_wins :
    ∀ headers : List MessagePartHeader,
      extractHeaders headers =
        (lastHeaderValueD "Subject" headers "",
          lastHeaderValueD "From" headers "") := by
  intro headers
  rw [extractHeaders, extractHeaders_fold headers ("", "")]

/-- C10: when the persisted token cannot be loaded and the interactive
flow yields a fresh token, getClient constructs the client from that
token and attempts a save; a failing save produces only a warning and
the client is still returned. -/
theorem c10_fresh_token_save_warn :
    ∀ (env : AuthEnv) (t : Token) (c : String),
      env.credData = some c →
      env.parseOk = true →
      tokenFromFile tokenPath env.fs = none →
      env.webToken = .ok t →
      (getClient env).result = .ok ⟨t⟩ ∧
      (getClient env).saveAttempted = true ∧
      (getClient env).warnings =
        (if env.saveOk then [] else ["Warning: unable to save token"]) := by
  intro env t c h1 h2 h3 h4
  simp only [getClient, h1, h2, h3, h4, if_true]
  cases hso : env.saveOk <;> simp [hso]

/-- C10, witness: in the concrete environment with an undecodable token
file and a failing save, getClient still returns the client built from
the fresh token, with the warning recorded and the save attempted. -/
theorem c10_fresh_token_save_warn_witness :
    (getClient c10Env).result = .ok ⟨⟨"A", "B", "R", "E"⟩⟩ ∧
    (getClient c10Env).saveAttempted = true ∧
    (getClient c10Env).warnings = ["Warning: unable to save token"] := by
  have h := c10_fresh_token_save_warn c10Env ⟨"A", "B", "R", "E"⟩
    "client-descriptor" rfl rfl (by rfl) rfl
  exact ⟨h.1, h.2.1, h.2.2.trans (by rfl)⟩

end EmailManager
